import Mathlib

/-!
Shallow embedding of the answer-submission core of `aoc_elf`
(`src/utils/answer_submission.py`).

Modelling conventions:
* `timedelta` values are integer numbers of seconds (`Int`); all durations
  appearing in the code are whole seconds.
* `datetime` values (the parse of a feedback entry's `"when"` field, and the
  current wall-clock time) are integer timestamps (`Int`, seconds since an
  arbitrary epoch).  `dateutil.parser.parse` is deterministic, so an entry is
  embedded together with the result that `parse` would produce on its
  `"when"` string: `whenVal : Except Unit Int`, where `.error ()` models a
  missing `"when"` key or an unparseable timestamp (both raise in Python).
* A feedback file as `json.load` sees it is `Except Unit (List FeedbackEntry)`,
  where `.error ()` models an unreadable file or malformed JSON
  (`json.load` raises).
* Python strings are modelled as `String` / `List Char`; the two regular
  expressions of `parse_wait_time` are compiled by hand into deterministic
  matchers (both patterns are backtracking-free: each `\d+` group is followed
  by a non-digit, so greedy maximal-munch coincides with regex semantics).
* IO performed by `submit_answer_attempt` is modelled as the list of events
  the function emits; the network submit call and the BeautifulSoup article
  extraction are injected as a parameter (`Except String (Option (List String))`:
  a raised exception, no `<article>` tag, or the list of paragraph texts).
-/

namespace AocElf

/-- Case-insensitive match of a literal pattern at the head of the input;
returns the remaining input on success.  Models matching the literal parts of
a regex compiled with `re.IGNORECASE` (case folding on ASCII letters; the
literals used here are pure ASCII). -/
def matchLitCI : List Char → List Char → Option (List Char)
  | [], cs => some cs
  | _ :: _, [] => none
  | p :: ps, c :: cs => if p.toLower = c.toLower then matchLitCI ps cs else none

/-- Longest run of decimal digits at the head of the input, with the rest.
Models a greedy regex group of digits followed by a non-digit literal. -/
def takeDigits : List Char → List Char × List Char
  | [] => ([], [])
  | c :: cs =>
    if c.isDigit then
      let (d, r) := takeDigits cs
      (c :: d, r)
    else ([], c :: cs)

/-- Value of a digit string, as Python `int` reads it (most significant first). -/
def digitsVal (ds : List Char) : Nat :=
  ds.foldl (fun a c => 10 * a + (c.toNat - 48)) 0

/-- Does `hay` start with `needle` (case-sensitive)?  Models Python string
equality on a slice. -/
def startsWithCh : List Char → List Char → Bool
  | [], _ => true
  | _ :: _, [] => false
  | p :: ps, c :: cs => p = c && startsWithCh ps cs

/-- Case-sensitive substring test; models the Python `needle in hay` operator. -/
def containsSub (needle : List Char) : List Char → Bool
  | [] => needle.isEmpty
  | c :: cs => startsWithCh needle (c :: cs) || containsSub needle cs

/-- Attempt to match the regex `You have (\d+)m (\d+)s left to wait.`
(compiled with `re.IGNORECASE`) at the head of the input.  The final `.` of
the pattern is the regex any-character, which matches one arbitrary character
other than a newline.  Returns the two captured groups. -/
def matchWaitAt (cs : List Char) : Option (Nat × Nat) :=
  match matchLitCI ("You have ".toList) cs with
  | none => none
  | some cs1 =>
    match takeDigits cs1 with
    | (d1, cs2) =>
      if d1.isEmpty then none
      else
        match matchLitCI ['m', ' '] cs2 with
        | none => none
        | some cs3 =>
          match takeDigits cs3 with
          | (d2, cs4) =>
            if d2.isEmpty then none
            else
              match matchLitCI ("s left to wait".toList) cs4 with
              | none => none
              | some cs5 =>
                match cs5 with
                | [] => none
                | c :: _ =>
                  if c = '\n' then none else some (digitsVal d1, digitsVal d2)

/-- Leftmost search for the `You have (\d+)m (\d+)s left to wait.` pattern,
as `re.search` performs it: try each start position from the left. -/
def searchWait : List Char → Option (Nat × Nat)
  | [] => none
  | c :: cs =>
    match matchWaitAt (c :: cs) with
    | some r => some r
    | none => searchWait cs

/-- Attempt to match the regex `please wait (\d+) minutes before trying again`
(compiled with `re.IGNORECASE`) at the head of the input. -/
def matchMinutesAt (cs : List Char) : Option Nat :=
  match matchLitCI ("please wait ".toList) cs with
  | none => none
  | some cs1 =>
    match takeDigits cs1 with
    | (d, cs2) =>
      if d.isEmpty then none
      else
        match matchLitCI (" minutes before trying again".toList) cs2 with
        | none => none
        | some _ => some (digitsVal d)

/-- Leftmost search for the `please wait (\d+) minutes before trying again`
pattern. -/
def searchMinutes : List Char → Option Nat
  | [] => none
  | c :: cs =>
    match matchMinutesAt (c :: cs) with
    | some r => some r
    | none => searchMinutes cs

/-- Embedding of `parse_wait_time` (answer_submission.py lines 51-78).
Returns the wait duration in seconds (`timedelta` as integer seconds). -/
def parse_wait_time (message : String) : Int :=
  match searchWait message.toList with
  | some (m, s) => 60 * (m : Int) + (s : Int)
  | none =>
    if containsSub ("one minute".toList) message.toList then 60
    else
      match searchMinutes message.toList with
      | some m => 60 * (m : Int)
      | none => 0

deriving instance DecidableEq for Except

/-- A recorded submission feedback entry, as stored in a `*_post.json` cache
file.  `message` is `none` when the `"message"` key is absent (the code reads
it with `.get("message", "")`).  `whenVal` is the result `dateutil.parser.parse`
yields on the entry's `"when"` field: `.error ()` models a missing key or an
unparseable timestamp, both of which raise in Python. -/
structure FeedbackEntry where
  whenVal : Except Unit Int
  message : Option String
deriving DecidableEq, Repr

/-- A feedback file as `json.load` delivers it: `.error ()` is an unreadable
file or malformed JSON (a raised `JSONDecodeError` / `OSError`). -/
abbrev FeedbackFile := Except Unit (List FeedbackEntry)

/-- Exceptions that can escape `read_last_submission_feedback`. -/
inductive ReadError where
  /-- `json.load` raised on a malformed or unreadable file. -/
  | malformedFile : ReadError
  /-- `parse(latest_feedback["when"])` raised (missing key or bad timestamp). -/
  | badWhen : ReadError
deriving DecidableEq, Repr

/-- The message string the code reads: `latest_feedback.get("message", "")`. -/
def FeedbackEntry.msgText (e : FeedbackEntry) : String :=
  e.message.getD ""

/-- Does the entry's message indicate a wait, as the code tests it:
`"wait" in latest_feedback.get("message", "")` (case-sensitive). -/
def waitIndicating (e : FeedbackEntry) : Bool :=
  containsSub ("wait".toList) e.msgText.toList

/-- The scan loop of `read_last_submission_feedback` (lines 96-109): for each
file in order, load it (raising on malformed files), skip empty lists, take the
LAST entry (`data[-1]`), parse its `"when"` (raising on failure), and keep it
as the running best if its message contains `"wait"` and its timestamp is
strictly later than the current best. -/
def readLoop : List FeedbackFile → Option (FeedbackEntry × Int) →
    Except ReadError (Option FeedbackEntry)
  | [], best => .ok (best.map Prod.fst)
  | f :: fs, best =>
    match f with
    | .error _ => .error .malformedFile
    | .ok data =>
      match data.getLast? with
      | none => readLoop fs best
      | some latest =>
        match latest.whenVal with
        | .error _ => .error .badWhen
        | .ok t =>
          if waitIndicating latest then
            match best with
            | none => readLoop fs (some (latest, t))
            | some (b, tb) =>
              if t > tb then readLoop fs (some (latest, t)) else readLoop fs (some (b, tb))
          else readLoop fs best

/-- Embedding of `read_last_submission_feedback` (lines 81-111).  The cache
root is `none` when the `aocd` cache directory does not exist (the function
returns `None`); otherwise it is the list of `*_post.json` files found by the
recursive glob, in traversal order. -/
def read_last_submission_feedback (cacheRoot : Option (List FeedbackFile)) :
    Except ReadError (Option FeedbackEntry) :=
  match cacheRoot with
  | none => .ok none
  | some files => readLoop files none

/-- The body of `calculate_remaining_wait_time` applied to the feedback the
reader produced (lines 137-146): if a feedback entry exists and its message
contains `"wait"`, return `max(wait_time - (now - submission_time), 0)`;
otherwise a zero duration. -/
def calcFromFeedback (fb : Option FeedbackEntry) (now : Int) : Except ReadError Int :=
  match fb with
  | none => .ok 0
  | some f =>
    if waitIndicating f then
      match f.whenVal with
      | .error _ => .error .badWhen
      | .ok t => .ok (max (parse_wait_time f.msgText - (now - t)) 0)
    else .ok 0

/-- Embedding of `calculate_remaining_wait_time` (lines 130-146), parameterised
by the cache state and the current wall-clock time. -/
def calculate_remaining_wait_time (cacheRoot : Option (List FeedbackFile))
    (now : Int) : Except ReadError Int :=
  match read_last_submission_feedback cacheRoot with
  | .error e => .error e
  | .ok fb => calcFromFeedback fb now

/-- One observable output of `display_countdown_timer`. -/
inductive TimerOutput where
  /-- One while-loop iteration: the rendered `MM:SS` frame (then a one-second
  sleep and a one-second decrement). -/
  | tick (mins secs : Nat) : TimerOutput
  /-- The final `You may now submit your answer.` line printed after the loop. -/
  | ready : TimerOutput
deriving DecidableEq, Repr

/-- Embedding of `display_countdown_timer` (lines 114-127) on a remaining time
of `n` whole seconds: the list of outputs the loop produces, in order. -/
def display_countdown_timer : Nat → List TimerOutput
  | 0 => [.ready]
  | n + 1 => .tick ((n + 1) / 60) ((n + 1) % 60) :: display_countdown_timer n

/-- The prefix of `cs` before the first occurrence of `needle`; the whole list
when there is no occurrence.  Models `text.split(marker)[0]`. -/
def takeBeforeSub (needle : List Char) : List Char → List Char
  | [] => []
  | c :: cs =>
    if startsWithCh needle (c :: cs) then [] else c :: takeBeforeSub needle cs

/-- One observable action of `submit_answer_attempt`. -/
inductive Event where
  /-- The already-submitted report (lines 166-168), after which the function
  returns without submitting. -/
  | alreadyAnsweredMsg : Event
  /-- A call of `display_countdown_timer` with the given remaining seconds. -/
  | countdown (secs : Int) : Event
  /-- The network submission `submit(answer, ...)` (line 176). -/
  | networkSubmit : Event
  /-- The completion printout: `text.split("You have completed Day")[0]`. -/
  | printCompletion (msg : String) : Event
  /-- The example-data refresh (`get_day_directory` then
  `check_and_update_example_input`, lines 193-194). -/
  | refreshExample : Event
  /-- The `Failed to submit answer.` printout when no `<article>` is found. -/
  | failMsg : Event
  /-- The `except Exception` printout of a raised exception (line 198). -/
  | errMsg (e : String) : Event
deriving DecidableEq, Repr

/-- The completion marker string tested at line 188. -/
def completedMarker : List Char := "You have completed Day".toList

/-- The part-two marker string tested at line 192. -/
def continueMarker : List Char := "[Continue to Part Two]".toList

/-- The paragraph loop of `submit_answer_attempt` (lines 185-194): scan the
paragraph texts in order; a paragraph containing `You have completed Day`
prints the text before the marker and BREAKS; otherwise a paragraph containing
`[Continue to Part Two]` triggers the example refresh and the loop CONTINUES
(there is no `break` in that branch). -/
def processParagraphs : List String → List Event
  | [] => []
  | t :: ts =>
    if containsSub completedMarker t.toList then
      [.printCompletion (String.mk (takeBeforeSub completedMarker t.toList))]
    else if containsSub continueMarker t.toList then
      .refreshExample :: processParagraphs ts
    else processParagraphs ts

/-- Outcome of the network submit call and response parsing, injected into the
dispatcher: `.error e` is an exception raised inside the `try` block,
`.ok none` is a response with no `<article>` tag, `.ok (some ps)` is the list
of paragraph texts (`paragraph.get_text(" ", strip=True)`) of the article. -/
abbrev NetResult := Except String (Option (List String))

/-- Embedding of `submit_answer_attempt` (lines 149-198) as the list of events
it emits.  `answered` is the result of `puzzle.answered(part)`; the cache state
and current time feed `calculate_remaining_wait_time`, whose exceptions
propagate out of the function (that call is outside the `try`). -/
def submit_answer_attempt (answered : Bool) (cacheRoot : Option (List FeedbackFile))
    (now : Int) (net : NetResult) : Except ReadError (List Event) :=
  if answered then .ok [.alreadyAnsweredMsg]
  else
    match calculate_remaining_wait_time cacheRoot now with
    | .error e => .error e
    | .ok remaining =>
      if remaining > 0 then .ok [.countdown remaining]
      else
        match net with
        | .error e => .ok [.networkSubmit, .errMsg e]
        | .ok none => .ok [.networkSubmit, .failMsg]
        | .ok (some ps) => .ok (.networkSubmit :: processParagraphs ps)

/-! Auxiliary notions used to state and settle the claims. -/

/-- A file is clean when `json.load` succeeds on it and, if it is nonempty,
the `"when"` field of its last entry parses (the only entry and the only
field that `read_last_submission_feedback` inspects). -/
def cleanFile : FeedbackFile → Bool
  | .error _ => false
  | .ok data =>
    match data.getLast? with
    | none => true
    | some e =>
      match e.whenVal with
      | .ok _ => true
      | .error _ => false

/-- The candidate that a file contributes to the reader's scan: its LAST entry
together with its parsed timestamp, provided the file is readable, nonempty,
the timestamp parses and the message contains `"wait"`; `none` otherwise. -/
def lastQual : FeedbackFile → Option (FeedbackEntry × Int)
  | .error _ => none
  | .ok data =>
    match data.getLast? with
    | none => none
    | some e =>
      match e.whenVal with
      | .error _ => none
      | .ok t => if waitIndicating e then some (e, t) else none

/-- Keep the strictly later of the running best and a new candidate (on a tie
or an earlier candidate the running best wins, as in lines 104-109). -/
def pickLater : Option (FeedbackEntry × Int) → FeedbackEntry × Int →
    Option (FeedbackEntry × Int)
  | none, x => some x
  | some (b, tb), (e, t) => if t > tb then some (e, t) else some (b, tb)

/-- Fold of `pickLater` over the candidates contributed by a list of files. -/
def chooseBest (best : Option (FeedbackEntry × Int)) :
    List FeedbackFile → Option (FeedbackEntry × Int)
  | [] => best
  | f :: fs =>
    match lastQual f with
    | none => chooseBest best fs
    | some x => chooseBest (pickLater best x) fs

/-- Modelled from the spec: the reader claim C4 describes, which considers
"all entries of all scanned per-day feedback files (not only the target day)"
and returns the chronologically latest wait-indicating entry among ALL of
them (skipping unreadable files and unparseable timestamps, which the spec
says are never fatal). -/
def readAllEntriesSpec (cacheRoot : Option (List FeedbackFile)) : Option FeedbackEntry :=
  match cacheRoot with
  | none => none
  | some files =>
    let entries := files.foldr (fun f acc =>
      match f with
      | .error _ => acc
      | .ok data => data ++ acc) []
    let best := entries.foldl (fun best e =>
      match e.whenVal with
      | .error _ => best
      | .ok t => if waitIndicating e then pickLater best (e, t) else best) none
    best.map Prod.fst

/-- Modelled from the spec: pattern 1 of section 4.2, "`<m>m <s>s left to
wait`" (case-insensitive), exactly as the spec words it — with no `You have `
prefix and no trailing-character requirement, matched at the head. -/
def matchSpecWaitAt (cs : List Char) : Option (Nat × Nat) :=
  match takeDigits cs with
  | (d1, cs1) =>
    if d1.isEmpty then none
    else
      match matchLitCI ['m', ' '] cs1 with
      | none => none
      | some cs2 =>
        match takeDigits cs2 with
        | (d2, cs3) =>
          if d2.isEmpty then none
          else
            match matchLitCI ("s left to wait".toList) cs3 with
            | none => none
            | some _ => some (digitsVal d1, digitsVal d2)

/-- Modelled from the spec: leftmost search for the spec's wording of
pattern 1 of section 4.2. -/
def searchSpecWait : List Char → Option (Nat × Nat)
  | [] => none
  | c :: cs =>
    match matchSpecWaitAt (c :: cs) with
    | some r => some r
    | none => searchSpecWait cs

/-- The decimal digit character for a value below ten. -/
def digitChar : Nat → Char
  | 0 => '0'
  | 1 => '1'
  | 2 => '2'
  | 3 => '3'
  | 4 => '4'
  | 5 => '5'
  | 6 => '6'
  | 7 => '7'
  | 8 => '8'
  | _ => '9'

/-- Standard decimal rendering of a natural number, most significant digit
first (the digit string Python would have printed into the message). -/
def renderNat (n : Nat) : List Char :=
  if _h : n < 10 then [digitChar n]
  else renderNat (n / 10) ++ [digitChar (n % 10)]
decreasing_by exact Nat.div_lt_self (by omega) (by omega)

/-- The canonical rate-limit message `You have <m>m <s>s left to wait.` as a
character list. -/
def mkWaitChars (m s : Nat) : List Char :=
  "You have ".toList ++ (renderNat m ++ ('m' :: ' ' :: (renderNat s ++
    ('s' :: (" left to wait".toList ++ ['.'])))))

/-- The canonical rate-limit message `You have <m>m <s>s left to wait.`. -/
def mkWaitMsg (m s : Nat) : String := String.mk (mkWaitChars m s)

/-- Concrete fixture: a wait-indicating feedback entry at timestamp 100. -/
def eWaitEntry : FeedbackEntry :=
  { whenVal := .ok 100, message := some "You have 1m 0s left to wait." }

/-- Concrete fixture: a non-wait feedback entry at the later timestamp 200. -/
def ePlainEntry : FeedbackEntry :=
  { whenVal := .ok 200, message := some "not the right answer." }

/-- Concrete fixture: a cache whose single file holds one wait-indicating
entry stamped at time 0 announcing a one-minute wait. -/
def waitCache : Option (List FeedbackFile) :=
  some [.ok [{ whenVal := .ok 0, message := some "You have 1m 0s left to wait." }]]

/-- The apostrophe character (U+0027). -/
def apos : Char := Char.ofNat 39

/-- The site's canonical acceptance phrasing, `That's the right answer!`. -/
def acceptedPhrase : String :=
  String.mk (['T', 'h', 'a', 't', apos, 's', ' '] ++ "the right answer!".toList)

/-- The site's canonical rejection phrasing, `That's not the right answer.`. -/
def rejectedPhrase : String :=
  String.mk (['T', 'h', 'a', 't', apos, 's', ' '] ++ "not the right answer.".toList)

/-! Helper lemmas. -/

/-- The character list of a string is its underlying data. -/
lemma toList_eq_data (s : String) : s.toList = s.data := rfl

/-- The countdown presenter on `n` remaining seconds performs `n` loop
iterations followed by the final ready message. -/
lemma display_countdown_timer_length (n : Nat) :
    (display_countdown_timer n).length = n + 1 := by
  induction n with
  | zero => rfl
  | succ k ih => simp [display_countdown_timer, ih]

/-- Invariant of the reader's scan loop: if every entry held by the running
best is wait-indicating, so is any entry the loop finally returns. -/
lemma readLoop_waitIndicating (fs : List FeedbackFile) :
    ∀ (best : Option (FeedbackEntry × Int)),
    (∀ p, best = some p → waitIndicating p.1 = true) →
    ∀ e, readLoop fs best = .ok (some e) → waitIndicating e = true := by
  induction fs with
  | nil =>
    intro best hb e h
    cases best with
    | none => simp [readLoop] at h
    | some p =>
      simp only [readLoop, Option.map_some', Except.ok.injEq, Option.some.injEq] at h
      exact h ▸ hb p rfl
  | cons f fs ih =>
    intro best hb e h
    cases f with
    | error u => simp [readLoop] at h
    | ok data =>
      rw [readLoop] at h
      cases hlast : data.getLast? with
      | none =>
        simp only [hlast] at h
        exact ih best hb e h
      | some latest =>
        simp only [hlast] at h
        cases hwhen : latest.whenVal with
        | error u => simp [hwhen] at h
        | ok t =>
          simp only [hwhen] at h
          by_cases hwi : waitIndicating latest = true
          · rw [if_pos hwi] at h
            cases best with
            | none =>
              refine ih (some (latest, t)) ?_ e h
              intro p hp
              injection hp with hp
              subst hp
              exact hwi
            | some b =>
              obtain ⟨be, bt⟩ := b
              replace h : (if t > bt then readLoop fs (some (latest, t))
                  else readLoop fs (some (be, bt))) = Except.ok (some e) := h
              by_cases hgt : t > bt
              · rw [if_pos hgt] at h
                refine ih (some (latest, t)) ?_ e h
                intro p hp
                injection hp with hp
                subst hp
                exact hwi
              · rw [if_neg hgt] at h
                refine ih (some (be, bt)) ?_ e h
                intro p hp
                injection hp with hp
                subst hp
                exact hb (be, bt) rfl
          · rw [if_neg hwi] at h
            exact ih best hb e h

/-! Claim theorems. -/

/-- C2: when the status query reports the part already answered, the
dispatcher only prints the already-submitted report and returns; no network
submission event is ever emitted. -/
theorem claim_C2 (cache : Option (List FeedbackFile)) (now : Int) (net : NetResult) :
    submit_answer_attempt true cache now net = .ok [Event.alreadyAnsweredMsg]
    ∧ Event.networkSubmit ∉ [Event.alreadyAnsweredMsg] :=
  ⟨by simp [submit_answer_attempt], by decide⟩

/-- C3: the cooldown calculator returns zero when the reader finds no
qualifying feedback; on a qualifying entry stamped `t` it returns
`max (parsedWait - (now - t)) 0`; at any time at or after `t + parsedWait`
it returns exactly zero; and its result is never negative. -/
theorem claim_C3 :
    (∀ cache now, read_last_submission_feedback cache = .ok none →
      calculate_remaining_wait_time cache now = .ok 0)
    ∧ (∀ e t now, e.whenVal = .ok t → waitIndicating e = true →
      calcFromFeedback (some e) now =
        .ok (max (parse_wait_time e.msgText - (now - t)) 0))
    ∧ (∀ e t now, e.whenVal = .ok t → t + parse_wait_time e.msgText ≤ now →
      calcFromFeedback (some e) now = .ok 0)
    ∧ (∀ fb now r, calcFromFeedback fb now = .ok r → 0 ≤ r) := by
  refine ⟨?_, ?_, ?_, ?_⟩
  · intro cache now h
    simp [calculate_remaining_wait_time, h, calcFromFeedback]
  · intro e t now hw hwi
    simp [calcFromFeedback, hwi, hw]
  · intro e t now hw hle
    cases hwi : waitIndicating e with
    | false => simp [calcFromFeedback, hwi]
    | true =>
      have hmax : parse_wait_time e.msgText - (now - t) ≤ 0 := by omega
      simp [calcFromFeedback, hwi, hw, max_eq_right hmax]
  · intro fb now r h
    cases fb with
    | none =>
      simp only [calcFromFeedback, Except.ok.injEq] at h
      omega
    | some f =>
      cases hwi : waitIndicating f with
      | false =>
        simp only [calcFromFeedback, hwi, Bool.false_eq_true, if_false,
          Except.ok.injEq] at h
        omega
      | true =>
        cases hw : f.whenVal with
        | error u => simp [calcFromFeedback, hwi, hw] at h
        | ok t =>
          simp only [calcFromFeedback, hwi, if_true, hw, Except.ok.injEq] at h
          subst h
          exact le_max_right _ _

/-- C3 witness: concrete qualifying entry stamped 0 announcing a one-minute
wait, evaluated 65 seconds later (that is, after `T + W`), yields zero. -/
theorem claim_C3_witness :
    ((FeedbackEntry.mk (.ok 0) (some "You have 1m 0s left to wait.")).whenVal = .ok 0
      ∧ (0 : Int) + parse_wait_time
          (FeedbackEntry.mk (.ok 0) (some "You have 1m 0s left to wait.")).msgText ≤ 65)
    ∧ calcFromFeedback (some (FeedbackEntry.mk (.ok 0)
        (some "You have 1m 0s left to wait."))) 65 = .ok 0 :=
  ⟨⟨rfl, by decide⟩,
    claim_C3.2.2.1 (FeedbackEntry.mk (.ok 0) (some "You have 1m 0s left to wait."))
      0 65 rfl (by decide)⟩

/-- C9: the wait-time parser is total by construction; on any message that
matches none of the three recognized patterns it returns a zero duration, and
its result is never negative. -/
theorem claim_C9 :
    (∀ msg : String, searchWait msg.toList = none →
      containsSub ("one minute".toList) msg.toList = false →
      searchMinutes msg.toList = none → parse_wait_time msg = 0)
    ∧ (∀ msg : String, 0 ≤ parse_wait_time msg) := by
  constructor
  · intro msg h1 h2 h3
    simp only [String.toList] at h1 h2 h3
    simp [parse_wait_time, String.toList, h1, h2, h3]
  · intro msg
    unfold parse_wait_time
    cases hs : searchWait msg.toList with
    | some r =>
      obtain ⟨m, s⟩ := r
      simp only []
      omega
    | none =>
      cases hc : containsSub ("one minute".toList) msg.toList with
      | true => simp
      | false =>
        simp only [Bool.false_eq_true, if_false]
        cases hm : searchMinutes msg.toList with
        | some m => simp only []; omega
        | none => simp

/-- C9 witness: a message with no recognized pattern parses to a zero wait. -/
theorem claim_C9_witness :
    (searchWait ("garbage".toList) = none
      ∧ containsSub ("one minute".toList) ("garbage".toList) = false
      ∧ searchMinutes ("garbage".toList) = none)
    ∧ parse_wait_time "garbage" = 0 :=
  ⟨⟨by decide, by decide, by decide⟩,
    claim_C9.1 "garbage" (by decide) (by decide) (by decide)⟩

/-- C10: an entry qualifies as wait-indicating exactly when its message
contains the case-sensitive substring `wait`: the reader only ever returns
such entries; the calculator returns zero on any entry whose message lacks
the substring; an absent message field is treated as the empty string and
hence never qualifies; and the test is case-sensitive (`WAIT` does not
qualify). -/
theorem claim_C10 :
    (∀ cache e, read_last_submission_feedback cache = .ok (some e) →
      waitIndicating e = true)
    ∧ (∀ e now, waitIndicating e = false → calcFromFeedback (some e) now = .ok 0)
    ∧ (∀ e : FeedbackEntry, e.message = none → waitIndicating e = false)
    ∧ waitIndicating { whenVal := .ok 0, message := some "You have 1m 0s left to WAIT." } = false
    ∧ waitIndicating eWaitEntry = true := by
  refine ⟨?_, ?_, ?_, by decide, by decide⟩
  · intro cache e h
    cases cache with
    | none => simp [read_last_submission_feedback] at h
    | some files =>
      exact readLoop_waitIndicating files none (by simp) e h
  · intro e now h
    simp [calcFromFeedback, h]
  · intro e h
    simp [waitIndicating, FeedbackEntry.msgText, h]
    decide

/-- C10 witness: the reader on a one-file cache returns its wait-indicating
entry, which indeed qualifies; the calculator on the non-wait entry yields
zero; an entry with no message field does not qualify. -/
theorem claim_C10_witness :
    (read_last_submission_feedback (some [.ok [eWaitEntry]]) = .ok (some eWaitEntry)
      ∧ waitIndicating ePlainEntry = false
      ∧ (FeedbackEntry.mk (.ok 0) none).message = none)
    ∧ waitIndicating eWaitEntry = true
    ∧ calcFromFeedback (some ePlainEntry) 0 = .ok 0
    ∧ waitIndicating (FeedbackEntry.mk (.ok 0) none) = false :=
  ⟨⟨by decide, by decide, rfl⟩,
    claim_C10.1 (some [.ok [eWaitEntry]]) eWaitEntry (by decide),
    claim_C10.2.1 ePlainEntry 0 (by decide),
    claim_C10.2.2.1 (FeedbackEntry.mk (.ok 0) none) rfl⟩

/-- When every file before the malformed one is clean, the scan loop raises
on the malformed file no matter what the running best is. -/
lemma readLoop_error_of_clean (fs : List FeedbackFile) :
    ∀ (pre : List FeedbackFile), (∀ f ∈ pre, cleanFile f = true) →
    ∀ best, readLoop (pre ++ .error () :: fs) best = .error .malformedFile := by
  intro pre
  induction pre with
  | nil => intro _ best; simp [readLoop]
  | cons f pre ih =>
    intro hpre best
    have hf : cleanFile f = true := hpre f (by simp)
    have hpre2 : ∀ g ∈ pre, cleanFile g = true := fun g hg => hpre g (by simp [hg])
    cases f with
    | error u => simp [cleanFile] at hf
    | ok data =>
      rw [List.cons_append, readLoop]
      cases hlast : data.getLast? with
      | none =>
        simp only [hlast]
        exact ih hpre2 best
      | some latest =>
        simp only [hlast]
        obtain ⟨t, hwhen⟩ : ∃ t, latest.whenVal = Except.ok t := by
          revert hf
          simp only [cleanFile, hlast]
          cases latest.whenVal with
          | error u => simp
          | ok t => exact fun _ => ⟨t, rfl⟩
        simp only [hwhen]
        by_cases hwi : waitIndicating latest = true
        · rw [if_pos hwi]
          split
          · exact ih hpre2 _
          · split
            · exact ih hpre2 _
            · exact ih hpre2 _
        · rw [if_neg hwi]
          exact ih hpre2 best

/-- A paragraph list in which no paragraph contains either marker produces no
classification event at all. -/
lemma processParagraphs_eq_nil (ps : List String)
    (h : ∀ p ∈ ps, containsSub completedMarker p.toList = false
      ∧ containsSub continueMarker p.toList = false) :
    processParagraphs ps = [] := by
  induction ps with
  | nil => rfl
  | cons p ps ih =>
    obtain ⟨h1, h2⟩ := h p (by simp)
    simp only [toList_eq_data] at h1 h2
    rw [processParagraphs, if_neg (by simp [h1]), if_neg (by simp [h2])]
    exact ih fun q hq => h q (by simp [hq])

/-- C1 (amended): when the part is not answered and the computed cooldown is
strictly positive, the dispatcher runs the countdown presenter for the full
remaining duration and then terminates WITHOUT issuing a network submission
(the presenter ends by telling the operator they may now submit). -/
theorem claim_C1 (cache : Option (List FeedbackFile)) (now : Int) (net : NetResult)
    (r : Int) (h : calculate_remaining_wait_time cache now = .ok r) (hr : 0 < r) :
    submit_answer_attempt false cache now net = .ok [Event.countdown r]
    ∧ (display_countdown_timer r.toNat).length = r.toNat + 1
    ∧ Event.networkSubmit ∉ [Event.countdown r] := by
  refine ⟨?_, display_countdown_timer_length r.toNat, by simp⟩
  simp only [submit_answer_attempt, Bool.false_eq_true, if_false, h]
  rw [if_pos hr]

/-- C1 witness: a cache announcing a one-minute wait recorded at time 0,
consulted at time 30, leaves 30 seconds of cooldown; the dispatcher then
emits only the countdown event. -/
theorem claim_C1_witness :
    (calculate_remaining_wait_time waitCache 30 = .ok 30 ∧ (0 : Int) < 30)
    ∧ (submit_answer_attempt false waitCache 30 (.ok (some [])) = .ok [Event.countdown 30]
      ∧ (display_countdown_timer (30 : Int).toNat).length = (30 : Int).toNat + 1
      ∧ Event.networkSubmit ∉ [Event.countdown 30]) :=
  ⟨⟨by decide, by decide⟩,
    claim_C1 waitCache 30 (.ok (some [])) 30 (by decide) (by decide)⟩

/-- C1 counterexample: in the spec's own scenario (entry stamped 0 announcing
a one-minute wait, current time 30) the dispatcher's whole event list is the
countdown; the number of network submissions issued after the wait is 0, not
the exactly one the claim states. -/
theorem claim_C1_counterexample :
    calculate_remaining_wait_time waitCache 30 = .ok 30
    ∧ submit_answer_attempt false waitCache 30 (.ok (some [])) = .ok [Event.countdown 30]
    ∧ List.count Event.networkSubmit [Event.countdown 30] = 0
    ∧ (0 : Nat) ≠ 1 :=
  ⟨by decide, by decide, by decide, by decide⟩

/-- C5 (amended): a malformed or unreadable feedback file is NOT skipped: the
scan raises on the first malformed file (given the files before it are clean),
the exception propagates out of the reader and out of the whole submission
attempt — the call to the calculator sits outside the try block — so a
corrupt history is fatal and blocks submission; only an absent cache root
yields none without raising. -/
theorem claim_C5 (pre fs : List FeedbackFile)
    (hpre : ∀ f ∈ pre, cleanFile f = true) :
    read_last_submission_feedback (some (pre ++ .error () :: fs)) = .error .malformedFile
    ∧ (∀ now net, submit_answer_attempt false (some (pre ++ .error () :: fs)) now net
        = .error .malformedFile)
    ∧ read_last_submission_feedback none = .ok none := by
  have hr := readLoop_error_of_clean fs pre hpre none
  refine ⟨hr, ?_, rfl⟩
  intro now net
  simp [submit_answer_attempt, calculate_remaining_wait_time,
    read_last_submission_feedback, hr]

/-- C5 witness: a clean file followed by a malformed one makes both the read
and the whole submission attempt raise. -/
theorem claim_C5_witness :
    (∀ f ∈ ([Except.ok [eWaitEntry]] : List FeedbackFile), cleanFile f = true)
    ∧ (read_last_submission_feedback
        (some (([Except.ok [eWaitEntry]] : List FeedbackFile) ++ .error () :: []))
        = .error .malformedFile
      ∧ (∀ now net, submit_answer_attempt false
          (some (([Except.ok [eWaitEntry]] : List FeedbackFile) ++ .error () :: [])) now net
          = .error .malformedFile)
      ∧ read_last_submission_feedback none = .ok none) :=
  ⟨by decide, claim_C5 [Except.ok [eWaitEntry]] [] (by decide)⟩

/-- C5 counterexample: with a malformed file in the cache the reader does not
skip it and return a result — it raises, and the raise escapes the submission
attempt, so the corrupt history blocks submission. -/
theorem claim_C5_counterexample :
    read_last_submission_feedback (some [.error (), .ok [eWaitEntry]])
      = .error .malformedFile
    ∧ submit_answer_attempt false (some [.error (), .ok [eWaitEntry]]) 0 (.ok (some []))
      = .error .malformedFile :=
  ⟨by decide, by decide⟩

/-- C7 (amended): the paragraph scan stops (first-match-wins) only at a
paragraph containing `You have completed Day`; a paragraph containing
`[Continue to Part Two]` triggers one example-refresh call and the scan
CONTINUES, so when no paragraph carries the completion marker the number of
refresh calls equals the number of paragraphs carrying the continue marker —
exactly one only when exactly one paragraph matches. -/
theorem claim_C7 :
    (∀ ps : List String, (∀ p ∈ ps, containsSub completedMarker p.toList = false) →
      List.count Event.refreshExample (processParagraphs ps)
        = ps.countP (fun p => containsSub continueMarker p.toList))
    ∧ (∀ (p : String) (ps : List String), containsSub completedMarker p.toList = true →
      processParagraphs (p :: ps)
        = [Event.printCompletion (String.mk (takeBeforeSub completedMarker p.toList))]) := by
  constructor
  · intro ps h
    induction ps with
    | nil => simp [processParagraphs]
    | cons p ps ih =>
      have hp : containsSub completedMarker p.toList = false := h p (by simp)
      have hrest := ih fun q hq => h q (by simp [hq])
      rw [processParagraphs]
      simp only [toList_eq_data] at hp hrest ⊢
      rw [if_neg (by simp [hp])]
      by_cases hc : containsSub continueMarker p.data = true
      · rw [if_pos hc]
        simp [List.count_cons, List.countP_cons, hc, hrest]
      · rw [if_neg hc]
        have hc2 : containsSub continueMarker p.data = false := by
          revert hc; cases containsSub continueMarker p.data <;> simp
        simp [List.countP_cons, hc2, hrest]
  · intro p ps h
    rw [processParagraphs, if_pos h]

/-- C7 witness: a single continue-marker paragraph triggers exactly one
refresh call. -/
theorem claim_C7_witness :
    (∀ p ∈ ["abc [Continue to Part Two] x"], containsSub completedMarker p.toList = false)
    ∧ List.count Event.refreshExample (processParagraphs ["abc [Continue to Part Two] x"])
      = ["abc [Continue to Part Two] x"].countP
          (fun p => containsSub continueMarker p.toList) :=
  ⟨by decide, claim_C7.1 ["abc [Continue to Part Two] x"] (by decide)⟩

/-- C7 counterexample: two paragraphs containing `[Continue to Part Two]`
trigger TWO example-refresh calls, not exactly one — the branch has no break,
so the scan does not stop at the first matching paragraph. -/
theorem claim_C7_counterexample :
    processParagraphs ["abc [Continue to Part Two] x", "def [Continue to Part Two] y"]
      = [Event.refreshExample, Event.refreshExample]
    ∧ submit_answer_attempt false none 0
        (.ok (some ["abc [Continue to Part Two] x", "def [Continue to Part Two] y"]))
      = .ok [Event.networkSubmit, Event.refreshExample, Event.refreshExample]
    ∧ List.count Event.refreshExample
        (processParagraphs ["abc [Continue to Part Two] x", "def [Continue to Part Two] y"]) = 2
    ∧ (2 : Nat) ≠ 1 :=
  ⟨by decide, by decide, by decide, by decide⟩

/-- C8 (amended): when the main content block exists but no paragraph contains
`You have completed Day` or `[Continue to Part Two]`, the code performs NO
further check — there is no test for the right-answer or not-the-right-answer
phrasing — so the dispatcher emits no classification event at all and the
outcome stays undetermined. -/
theorem claim_C8 (ps : List String) (now : Int)
    (h : ∀ p ∈ ps, containsSub completedMarker p.toList = false
      ∧ containsSub continueMarker p.toList = false) :
    processParagraphs ps = []
    ∧ submit_answer_attempt false none now (.ok (some ps)) = .ok [Event.networkSubmit] := by
  have hempty := processParagraphs_eq_nil ps h
  refine ⟨hempty, ?_⟩
  simp [submit_answer_attempt, calculate_remaining_wait_time,
    read_last_submission_feedback, calcFromFeedback, hempty]

/-- C8 witness: on the site's canonical rejection phrasing the dispatcher
emits only the submission event and no classification. -/
theorem claim_C8_witness :
    (∀ p ∈ [rejectedPhrase], containsSub completedMarker p.toList = false
      ∧ containsSub continueMarker p.toList = false)
    ∧ processParagraphs [rejectedPhrase] = []
    ∧ submit_answer_attempt false none 0 (.ok (some [rejectedPhrase]))
      = .ok [Event.networkSubmit] :=
  ⟨by decide, claim_C8 [rejectedPhrase] 0 (by decide)⟩

/-- C8 counterexample: the code reacts identically — with no event at all —
to the canonical incorrect phrasing and to the canonical accepted phrasing:
no explicit right/wrong check exists and the two outcomes are
indistinguishable, refuting the claimed explicit decision. -/
theorem claim_C8_counterexample :
    processParagraphs [rejectedPhrase] = []
    ∧ processParagraphs [acceptedPhrase] = []
    ∧ submit_answer_attempt false none 0 (.ok (some [rejectedPhrase]))
      = submit_answer_attempt false none 0 (.ok (some [acceptedPhrase])) :=
  ⟨by decide, by decide, by decide⟩

/-- The later-of combinator always produces a candidate. -/
lemma pickLater_some (best : Option (FeedbackEntry × Int)) (x : FeedbackEntry × Int) :
    ∃ y, pickLater best x = some y := by
  obtain ⟨xe, xt⟩ := x
  cases best with
  | none => exact ⟨(xe, xt), rfl⟩
  | some b =>
    obtain ⟨be, bt⟩ := b
    by_cases h : xt > bt
    · exact ⟨(xe, xt), by rw [pickLater, if_pos h]⟩
    · exact ⟨(be, bt), by rw [pickLater, if_neg h]⟩

/-- The later-of combinator dominates both of its arguments in timestamp. -/
lemma pickLater_le (best : Option (FeedbackEntry × Int)) (x y : FeedbackEntry × Int)
    (h : pickLater best x = some y) :
    x.2 ≤ y.2 ∧ ∀ b, best = some b → b.2 ≤ y.2 := by
  obtain ⟨xe, xt⟩ := x
  cases best with
  | none =>
    rw [pickLater] at h
    injection h with h
    subst h
    exact ⟨le_refl _, by rintro b hb; cases hb⟩
  | some b =>
    obtain ⟨be, bt⟩ := b
    rw [pickLater] at h
    by_cases hgt : xt > bt
    · rw [if_pos hgt] at h
      injection h with h
      subst h
      refine ⟨le_refl _, ?_⟩
      intro b hb
      injection hb with hb
      subst hb
      simp only []
      omega
    · rw [if_neg hgt] at h
      injection h with h
      subst h
      refine ⟨by simp only []; omega, ?_⟩
      intro b hb
      injection hb with hb
      subst hb
      exact le_refl _

/-- The later-of combinator yields either its new candidate or its old best. -/
lemma pickLater_eq_or (best : Option (FeedbackEntry × Int)) (x y : FeedbackEntry × Int)
    (h : pickLater best x = some y) : y = x ∨ best = some y := by
  obtain ⟨xe, xt⟩ := x
  cases best with
  | none =>
    rw [pickLater] at h
    injection h with h
    exact Or.inl h.symm
  | some b =>
    obtain ⟨be, bt⟩ := b
    rw [pickLater] at h
    by_cases hgt : xt > bt
    · rw [if_pos hgt] at h
      injection h with h
      exact Or.inl h.symm
    · rw [if_neg hgt] at h
      injection h with h
      exact Or.inr (by rw [h])

/-- On a clean file list the scan loop computes exactly the `chooseBest` fold
over the per-file last-entry candidates. -/
lemma readLoop_eq_chooseBest (fs : List FeedbackFile) :
    ∀ best, (∀ f ∈ fs, cleanFile f = true) →
    readLoop fs best = .ok ((chooseBest best fs).map Prod.fst) := by
  induction fs with
  | nil => intro best _; rfl
  | cons f fs ih =>
    intro best hclean
    have hf : cleanFile f = true := hclean f (by simp)
    have hrest : ∀ g ∈ fs, cleanFile g = true := fun g hg => hclean g (by simp [hg])
    cases f with
    | error u => simp [cleanFile] at hf
    | ok data =>
      rw [readLoop, chooseBest]
      cases hlast : data.getLast? with
      | none =>
        simp only [hlast]
        rw [show lastQual (Except.ok data) = none from by simp [lastQual, hlast]]
        exact ih best hrest
      | some latest =>
        simp only [hlast]
        obtain ⟨t, hwhen⟩ : ∃ t, latest.whenVal = Except.ok t := by
          revert hf
          simp only [cleanFile, hlast]
          cases latest.whenVal with
          | error u => simp
          | ok t => exact fun _ => ⟨t, rfl⟩
        simp only [hwhen]
        by_cases hwi : waitIndicating latest = true
        · rw [if_pos hwi]
          rw [show lastQual (Except.ok data) = some (latest, t) from by
            simp [lastQual, hlast, hwhen, hwi]]
          cases best with
          | none => exact ih (some (latest, t)) hrest
          | some b =>
            obtain ⟨be, bt⟩ := b
            show (if t > bt then readLoop fs (some (latest, t))
                else readLoop fs (some (be, bt)))
              = Except.ok (Option.map Prod.fst
                  (chooseBest (pickLater (some (be, bt)) (latest, t)) fs))
            by_cases hgt : t > bt
            · rw [if_pos hgt, show pickLater (some (be, bt)) (latest, t)
                = some (latest, t) from by rw [pickLater, if_pos hgt]]
              exact ih (some (latest, t)) hrest
            · rw [if_neg hgt, show pickLater (some (be, bt)) (latest, t)
                = some (be, bt) from by rw [pickLater, if_neg hgt]]
              exact ih (some (be, bt)) hrest
        · rw [if_neg hwi]
          rw [show lastQual (Except.ok data) = none from by
            simp [lastQual, hlast, hwhen, hwi]]
          exact ih best hrest

/-- The fold yields no candidate exactly when it started with none and no
file contributes one. -/
lemma chooseBest_eq_none (fs : List FeedbackFile) :
    ∀ best, chooseBest best fs = none ↔ best = none ∧ ∀ f ∈ fs, lastQual f = none := by
  induction fs with
  | nil => intro best; simp [chooseBest]
  | cons f fs ih =>
    intro best
    rw [chooseBest]
    cases hq : lastQual f with
    | none =>
      rw [ih best]
      constructor
      · rintro ⟨h1, h2⟩
        exact ⟨h1, by
          intro g hg
          rcases List.mem_cons.mp hg with hg | hg
          · rw [hg]; exact hq
          · exact h2 g hg⟩
      · rintro ⟨h1, h2⟩
        exact ⟨h1, fun g hg => h2 g (by simp [hg])⟩
    | some x =>
      rw [ih (pickLater best x)]
      obtain ⟨y, hy⟩ := pickLater_some best x
      constructor
      · rintro ⟨h1, _⟩
        rw [h1] at hy
        cases hy
      · rintro ⟨_, h2⟩
        have := h2 f (by simp)
        rw [hq] at this
        cases this

/-- Any candidate the fold returns either is the starting best or is
contributed by some file, and its timestamp dominates the starting best and
every file's candidate. -/
lemma chooseBest_spec (fs : List FeedbackFile) :
    ∀ best e t, chooseBest best fs = some (e, t) →
    (best = some (e, t) ∨ ∃ f ∈ fs, lastQual f = some (e, t))
    ∧ (∀ b, best = some b → b.2 ≤ t)
    ∧ (∀ f ∈ fs, ∀ p, lastQual f = some p → p.2 ≤ t) := by
  induction fs with
  | nil =>
    intro best e t h
    rw [chooseBest] at h
    refine ⟨Or.inl h, ?_, by simp⟩
    intro b hb
    rw [h] at hb
    injection hb with hb
    rw [← hb]
  | cons f fs ih =>
    intro best e t h
    rw [chooseBest] at h
    cases hq : lastQual f with
    | none =>
      rw [hq] at h
      obtain ⟨h1, h2, h3⟩ := ih best e t h
      refine ⟨?_, h2, ?_⟩
      · rcases h1 with h1 | ⟨g, hg, hgq⟩
        · exact Or.inl h1
        · exact Or.inr ⟨g, by simp [hg], hgq⟩
      · intro g hg p hp
        rcases List.mem_cons.mp hg with hg | hg
        · rw [hg, hq] at hp
          cases hp
        · exact h3 g hg p hp
    | some x =>
      rw [hq] at h
      obtain ⟨h1, h2, h3⟩ := ih (pickLater best x) e t h
      obtain ⟨y, hy⟩ := pickLater_some best x
      have hyle : y.2 ≤ t := h2 y hy
      obtain ⟨hxle, hble⟩ := pickLater_le best x y hy
      refine ⟨?_, ?_, ?_⟩
      · rcases h1 with h1 | ⟨g, hg, hgq⟩
        · rcases pickLater_eq_or best x (e, t) h1 with hx | hb
          · exact Or.inr ⟨f, by simp, by rw [hq, hx]⟩
          · exact Or.inl hb
        · exact Or.inr ⟨g, by simp [hg], hgq⟩
      · intro b hb
        exact le_trans (hble b hb) hyle
      · intro g hg p hp
        rcases List.mem_cons.mp hg with hg | hg
        · rw [hg, hq] at hp
          injection hp with hp
          subst hp
          exact le_trans hxle hyle
        · exact h3 g hg p hp

/-- C4 (amended): the reader inspects only the LAST entry of each scanned
file (`data[-1]`), never earlier entries.  Provided every file parses and each
nonempty file's last entry has a parseable timestamp, it returns the
chronologically latest wait-indicating LAST entry across all scanned files,
none when no file's last entry qualifies, and none when the cache root is
absent. -/
theorem claim_C4 (files : List FeedbackFile)
    (hclean : ∀ f ∈ files, cleanFile f = true) :
    (read_last_submission_feedback (some files) = .ok none
      ↔ ∀ f ∈ files, lastQual f = none)
    ∧ (∀ e, read_last_submission_feedback (some files) = .ok (some e) →
        ∃ t, (∃ f ∈ files, lastQual f = some (e, t))
          ∧ ∀ f ∈ files, ∀ p, lastQual f = some p → p.2 ≤ t)
    ∧ read_last_submission_feedback none = .ok none := by
  have hmain : read_last_submission_feedback (some files)
      = .ok ((chooseBest none files).map Prod.fst) :=
    readLoop_eq_chooseBest files none hclean
  refine ⟨?_, ?_, rfl⟩
  · rw [hmain]
    rw [show (Except.ok ((chooseBest none files).map Prod.fst)
        = (.ok none : Except ReadError (Option FeedbackEntry)))
      ↔ (chooseBest none files).map Prod.fst = none from by
        constructor
        · intro h; injection h
        · intro h; rw [h]]
    rw [Option.map_eq_none']
    rw [chooseBest_eq_none files none]
    simp
  · intro e h
    rw [hmain] at h
    injection h with h
    obtain ⟨⟨e2, t⟩, hcb, hfst⟩ := Option.map_eq_some'.mp h
    simp only [] at hfst
    subst hfst
    obtain ⟨h1, _, h3⟩ := chooseBest_spec files none e2 t hcb
    rcases h1 with h1 | h1
    · cases h1
    · exact ⟨t, h1, h3⟩

/-- C4 witness: on a clean one-file cache whose last entry is not
wait-indicating while an earlier entry is, the reader returns none — the
qualifying earlier entry is invisible to it. -/
theorem claim_C4_witness :
    (∀ f ∈ ([Except.ok [eWaitEntry, ePlainEntry]] : List FeedbackFile), cleanFile f = true)
    ∧ ((read_last_submission_feedback
          (some ([Except.ok [eWaitEntry, ePlainEntry]] : List FeedbackFile)) = .ok none
        ↔ ∀ f ∈ ([Except.ok [eWaitEntry, ePlainEntry]] : List FeedbackFile),
            lastQual f = none)
      ∧ (∀ e, read_last_submission_feedback
            (some ([Except.ok [eWaitEntry, ePlainEntry]] : List FeedbackFile))
            = .ok (some e) →
          ∃ t, (∃ f ∈ ([Except.ok [eWaitEntry, ePlainEntry]] : List FeedbackFile),
              lastQual f = some (e, t))
            ∧ ∀ f ∈ ([Except.ok [eWaitEntry, ePlainEntry]] : List FeedbackFile),
                ∀ p, lastQual f = some p → p.2 ≤ t)
      ∧ read_last_submission_feedback none = .ok none) :=
  ⟨by decide, claim_C4 [Except.ok [eWaitEntry, ePlainEntry]] (by decide)⟩

/-- C4 counterexample: the cache holds one readable file with a
wait-indicating entry followed by a later non-wait entry.  Taken over ALL
entries, the latest wait-indicating entry exists (the spec-modelled reader
returns it), but the code inspects only `data[-1]` and returns none. -/
theorem claim_C4_counterexample :
    readAllEntriesSpec (some [Except.ok [eWaitEntry, ePlainEntry]]) = some eWaitEntry
    ∧ read_last_submission_feedback (some [Except.ok [eWaitEntry, ePlainEntry]]) = .ok none
    ∧ waitIndicating eWaitEntry = true
    ∧ (some eWaitEntry : Option FeedbackEntry) ≠ none :=
  ⟨by decide, by decide, by decide, by decide⟩

/-- Matching a literal pattern against itself followed by anything succeeds
and returns the rest. -/
lemma matchLitCI_append (p rest : List Char) :
    matchLitCI p (p ++ rest) = some rest := by
  induction p with
  | nil => rfl
  | cons c cs ih => simp [matchLitCI, ih]

/-- Every rendered digit character is a decimal digit. -/
lemma digitChar_isDigit (d : Nat) : (digitChar d).isDigit = true := by
  rcases d with _|_|_|_|_|_|_|_|_|d <;> rfl

/-- The numeric value of a rendered digit character below ten. -/
lemma digitChar_val (d : Nat) (h : d < 10) : (digitChar d).toNat - 48 = d := by
  rcases d with _|_|_|_|_|_|_|_|_|_|d
  iterate 10 decide
  omega

/-- Folding one more digit onto a digit string multiplies the accumulated
value by ten. -/
lemma digitsVal_append (ds : List Char) (c : Char) :
    digitsVal (ds ++ [c]) = 10 * digitsVal ds + (c.toNat - 48) := by
  simp [digitsVal, List.foldl_append]

/-- The decimal rendering consists of digits, is nonempty, and evaluates back
to the rendered number. -/
lemma renderNat_spec (n : Nat) :
    (∀ c ∈ renderNat n, c.isDigit = true) ∧ renderNat n ≠ []
    ∧ digitsVal (renderNat n) = n := by
  induction n using Nat.strong_induction_on with
  | _ n ih =>
    rw [renderNat]
    by_cases h : n < 10
    · rw [dif_pos h]
      refine ⟨?_, by simp, ?_⟩
      · intro c hc
        rw [List.mem_singleton] at hc
        rw [hc]
        exact digitChar_isDigit n
      · show digitsVal [digitChar n] = n
        have : digitsVal [digitChar n] = (digitChar n).toNat - 48 := by
          simp [digitsVal, List.foldl]
        rw [this, digitChar_val n h]
    · rw [dif_neg h]
      obtain ⟨ih1, ih2, ih3⟩ := ih (n / 10) (Nat.div_lt_self (by omega) (by omega))
      refine ⟨?_, by simp, ?_⟩
      · intro c hc
        rcases List.mem_append.mp hc with hc | hc
        · exact ih1 c hc
        · rw [List.mem_singleton] at hc
          rw [hc]
          exact digitChar_isDigit _
      · rw [digitsVal_append, ih3, digitChar_val _ (Nat.mod_lt _ (by omega))]
        omega

/-- Taking digits from a digit string followed by a non-digit splits exactly
at the non-digit. -/
lemma takeDigits_append (ds : List Char) (hds : ∀ c ∈ ds, c.isDigit = true)
    (c : Char) (hc : c.isDigit = false) (rest : List Char) :
    takeDigits (ds ++ c :: rest) = (ds, c :: rest) := by
  induction ds with
  | nil => simp [takeDigits, hc]
  | cons d ds ih =>
    have hd : d.isDigit = true := hds d (by simp)
    have ih2 := ih fun x hx => hds x (by simp [hx])
    simp [takeDigits, hd, ih2]

/-- The code's regex matches the canonical wait message at its head and
captures the two rendered numbers. -/
lemma matchWaitAt_canonical (m s : Nat) :
    matchWaitAt (mkWaitChars m s) = some (m, s) := by
  obtain ⟨hdm, hnm, hvm⟩ := renderNat_spec m
  obtain ⟨hds, hns, hvs⟩ := renderNat_spec s
  have hm1 : (renderNat m).isEmpty = false := by
    cases hrm : renderNat m with
    | nil => exact absurd hrm hnm
    | cons a l => rfl
  have hs1 : (renderNat s).isEmpty = false := by
    cases hrs : renderNat s with
    | nil => exact absurd hrs hns
    | cons a l => rfl
  have hms : matchLitCI ['m', ' ']
      ('m' :: ' ' :: (renderNat s ++ ('s' :: (" left to wait".toList ++ ['.']))))
      = some (renderNat s ++ ('s' :: (" left to wait".toList ++ ['.']))) :=
    matchLitCI_append ['m', ' '] _
  have hw : matchLitCI ("s left to wait".toList)
      ('s' :: (" left to wait".toList ++ ['.'])) = some ['.'] :=
    matchLitCI_append ("s left to wait".toList) ['.']
  simp only [matchWaitAt, mkWaitChars, matchLitCI_append,
    takeDigits_append (renderNat m) hdm 'm' (by decide), hm1,
    Bool.false_eq_true, if_false, hms,
    takeDigits_append (renderNat s) hds 's' (by decide), hs1, hw]
  rw [if_neg (by decide)]
  rw [hvm, hvs]

/-- A successful match at the head makes the leftmost search succeed with the
same captures. -/
lemma searchWait_of_head (cs : List Char) (r : Nat × Nat)
    (h : matchWaitAt cs = some r) : searchWait cs = some r := by
  cases cs with
  | nil => exact Option.noConfusion h
  | cons c cs2 =>
    rw [searchWait]
    simp only [h]

/-- C6 (amended): the code's regex demands the `You have ` prefix and one
further character after `wait` (the regex's final `.`): for every m and s the
exact message `You have <m>m <s>s left to wait.` parses to m minutes plus s
seconds, also under case variation; a message lacking the `You have ` prefix,
or lacking any character after `wait`, does not match and parses to zero. -/
theorem claim_C6 :
    (∀ m s : Nat, parse_wait_time (mkWaitMsg m s) = 60 * (m : Int) + (s : Int))
    ∧ parse_wait_time "yOu HaVe 4M 30S lEfT tO wAiT." = 270
    ∧ parse_wait_time "4m 30s left to wait." = 0
    ∧ parse_wait_time "You have 4m 30s left to wait" = 0 := by
  refine ⟨?_, by decide, by decide, by decide⟩
  intro m s
  have h := searchWait_of_head _ _ (matchWaitAt_canonical m s)
  have htl : (mkWaitMsg m s).toList = mkWaitChars m s := rfl
  rw [parse_wait_time, htl]
  simp only [h]

/-- C6 counterexample: the message `4m 30s left to wait.` matches the spec's
own wording of pattern 1 (minutes 4, seconds 30), yet the parser returns 0,
not 270, because the code's regex additionally requires the `You have `
prefix. -/
theorem claim_C6_counterexample :
    searchSpecWait ("4m 30s left to wait.".toList) = some (4, 30)
    ∧ parse_wait_time "4m 30s left to wait." = 0
    ∧ (0 : Int) ≠ 60 * 4 + 30 :=
  ⟨by decide, by decide, by decide⟩

end AocElf
